import Mathlib

/-!
Verification of the AI-Hiring-Copilot real-time core: the audio playback
scheduler, interruption handling, session end, and the incremental transcript
aggregator, as implemented in the two App variants of the repository
(the `onmessage` callback, `endInterview` and `updateTranscript` functions).

Modelling conventions:
* Audio-clock times and durations (`AudioContext.currentTime`,
  `audioBuffer.duration`, `nextStartTimeRef.current`) are rationals.
* Wall-clock timestamps (`Date.now()`, milliseconds) are integers.
* The JS `Set` of active `AudioBufferSourceNode`s is a list in insertion
  order (JS sets iterate in insertion order); each source carries a numeric
  id standing for its object identity.
* The codec (`decode` / `decodeAudioData` from utils/audio) is not part of
  the sources being verified; a decode outcome is passed in as
  `Option ℚ` — `some d` for a successful decode of duration `d`, `none`
  for a decode failure (per the spec, decode fails on malformed input).
* Each `onmessage` invocation is atomic: one audio-clock reading `now`
  and one wall-clock reading per message.
-/

namespace HiringCopilot

/-- Speaker role tag of a transcript message. -/
inductive Role where
  | interviewer
  | candidate
deriving DecidableEq

/-- A transcript segment as stored in the `transcript` React state:
role, accumulated text, and creation timestamp in milliseconds. -/
structure Message where
  role : Role
  text : String
  timestamp : ℤ
deriving DecidableEq

/-- A scheduled playback segment: the start time passed to `source.start`,
the decoded buffer duration, and an id standing for the source-node object. -/
structure Segment where
  startTime : ℚ
  duration : ℚ
  id : ℕ
deriving DecidableEq

/-- Scheduler state held in the App refs: `nextStartTimeRef.current`,
`activeSourcesRef.current` (insertion order), and the `isModelTalking`
React state (the spec calls it `isAgentSpeaking`). -/
structure SchedulerState where
  nextStartTime : ℚ
  activeSources : List Segment
  isModelTalking : Bool
deriving DecidableEq

/-- Initial scheduler state: `nextStartTimeRef` starts at 0, the active
set empty, `isModelTalking` false. -/
def initialSched : SchedulerState := ⟨0, [], false⟩

/-- The audio branch of `onmessage`: on an inbound audio chunk the code runs
`setIsModelTalking(true)`, then `nextStartTime = max(nextStartTime, now)`,
then awaits the decode; on success it starts a source at `nextStartTime`,
adds the duration to `nextStartTime` and inserts the source into the active
set.  On decode failure the remaining statements are skipped, so only the
two mutations made before the decode survive. -/
def enqueueChunk (s : SchedulerState) (now : ℚ) (decoded : Option ℚ)
    (sid : ℕ) : SchedulerState :=
  let startTime := max s.nextStartTime now
  match decoded with
  | none => { s with isModelTalking := true, nextStartTime := startTime }
  | some dur =>
      { s with
          isModelTalking := true
          nextStartTime := startTime + dur
          activeSources := s.activeSources ++ [⟨startTime, dur, sid⟩] }

/-- The `onended` handler of a source: delete the source from the active
set; if the set became empty, `setIsModelTalking(false)`. -/
def sourceEnded (s : SchedulerState) (sid : ℕ) : SchedulerState :=
  let remaining := s.activeSources.filter (fun seg => seg.id != sid)
  { s with
      activeSources := remaining
      isModelTalking := if remaining.isEmpty then false else s.isModelTalking }

/-- The `interrupted` branch of `onmessage` (the interruption controller):
stop every active source, clear the active set, reset `nextStartTime` to 0,
`setIsModelTalking(false)`.  Total function: stopping sources never raises
(every source in the set had `start` called, and part_002 additionally
guards each `stop` with try/catch). -/
def handleInterrupt (s : SchedulerState) : SchedulerState :=
  { s with nextStartTime := 0, activeSources := [], isModelTalking := false }

/-- Events that drive the scheduler state within one session. -/
inductive SchedEvent where
  | audioChunk (now : ℚ) (decoded : Option ℚ) (sid : ℕ)
  | ended (sid : ℕ)
  | interrupted
deriving DecidableEq

/-- One scheduler step. -/
def schedStep (s : SchedulerState) : SchedEvent → SchedulerState
  | .audioChunk now decoded sid => enqueueChunk s now decoded sid
  | .ended sid => sourceEnded s sid
  | .interrupted => handleInterrupt s

/-- Run the scheduler over a sequence of events. -/
def schedRun (s : SchedulerState) (evs : List SchedEvent) : SchedulerState :=
  evs.foldl schedStep s

/-- An event whose decode (if any) succeeded. -/
def decodeOk : SchedEvent → Bool
  | .audioChunk _ none _ => false
  | _ => true

/-- An event whose decoded duration (if any) is non-negative. -/
def durNonneg : SchedEvent → Bool
  | .audioChunk _ (some d) _ => decide (0 ≤ d)
  | _ => true

/-- Session status of the App. -/
inductive InterviewStatus where
  | IDLE
  | CONNECTING
  | ACTIVE
  | ENDED
deriving DecidableEq

/-- The part of the App state relevant to session end: the status React
state and the scheduler refs. -/
structure AppState where
  status : InterviewStatus
  sched : SchedulerState
deriving DecidableEq

/-- `endInterview` from the sources: closes the session (and in part_002
stops the microphone tracks) and sets the status to ENDED.  It does not
touch `nextStartTimeRef` or `activeSourcesRef`. -/
def endInterview (st : AppState) : AppState :=
  { st with status := .ENDED }

namespace AppV1

/-- `updateTranscript` from part_001: coalesce a fragment into the last
segment when the roles match and less than 3000 ms have elapsed since the
last segment's creation timestamp, keeping that timestamp; otherwise append
a new segment stamped with the current wall clock. -/
def updateTranscript (prev : List Message) (role : Role) (text : String)
    (now : ℤ) : List Message :=
  match prev.getLast? with
  | some last =>
      if last.role = role ∧ now - last.timestamp < 3000 then
        prev.dropLast ++ [{ last with text := last.text ++ " " ++ text }]
      else
        prev ++ [⟨role, text, now⟩]
  | none => prev ++ [⟨role, text, now⟩]

end AppV1

namespace AppV2

/-- `updateTranscript` from part_002: coalesce a fragment into the last
segment when the roles match and less than 3000 ms have elapsed since the
last segment's creation timestamp, keeping that timestamp; otherwise append
a new segment stamped with the current wall clock. -/
def updateTranscript (prev : List Message) (role : Role) (text : String)
    (now : ℤ) : List Message :=
  match prev.getLast? with
  | some last =>
      if last.role = role ∧ now - last.timestamp < 3000 then
        prev.dropLast ++ [{ last with text := last.text ++ " " ++ text }]
      else
        prev ++ [⟨role, text, now⟩]
  | none => prev ++ [⟨role, text, now⟩]

end AppV2

/-- The transcription branch of `onmessage`: an output transcription is
appended as an interviewer fragment; otherwise (else-if) an input
transcription is appended as a candidate fragment. -/
def handleTranscription (tr : List Message) (outT inT : Option String)
    (wall : ℤ) : List Message :=
  match outT with
  | some t => AppV2.updateTranscript tr .interviewer t wall
  | none =>
      match inT with
      | some t => AppV2.updateTranscript tr .candidate t wall
      | none => tr

/-- An inbound live-server message as seen by `onmessage`: an optional
audio chunk (with its decode outcome), the two optional transcriptions, and
the interrupted flag. -/
structure ServerMessage where
  modelTurnAudio : Option (Option ℚ)
  outputTranscription : Option String
  inputTranscription : Option String
  interrupted : Bool

/-- The whole `onmessage` handler over scheduler state and transcript.
A decode failure throws inside the async handler, so the transcription and
interruption blocks are skipped on that path. -/
def onmessage (sched : SchedulerState) (tr : List Message)
    (msg : ServerMessage) (now : ℚ) (wall : ℤ) (sid : ℕ) :
    SchedulerState × List Message :=
  match msg.modelTurnAudio with
  | some none => (enqueueChunk sched now none sid, tr)
  | some (some d) =>
      let sched1 := enqueueChunk sched now (some d) sid
      let tr1 := handleTranscription tr msg.outputTranscription
        msg.inputTranscription wall
      (if msg.interrupted then handleInterrupt sched1 else sched1, tr1)
  | none =>
      let tr1 := handleTranscription tr msg.outputTranscription
        msg.inputTranscription wall
      (if msg.interrupted then handleInterrupt sched else sched, tr1)

/-- Segments scheduled back to back from time `T0` with the given
durations. -/
def mkSegs (T0 : ℚ) : List ℚ → List Segment
  | [] => []
  | d :: ds => ⟨T0, d, 0⟩ :: mkSegs (T0 + d) ds

/-- Consecutive segments do not overlap: each one's start plus duration is
at most the next one's start. -/
def segsNoOverlap : List Segment → Bool
  | a :: b :: rest =>
      decide (a.startTime + a.duration ≤ b.startTime) && segsNoOverlap (b :: rest)
  | _ => true

/-! ## Helper equations for the scheduler definitions -/

/-- Running the scheduler over a cons of events. -/
lemma schedRun_cons (s : SchedulerState) (e : SchedEvent)
    (evs : List SchedEvent) :
    schedRun s (e :: evs) = schedRun (schedStep s e) evs := rfl

/-- Appending an element to a list never yields the empty list. -/
lemma isEmpty_append_singleton {α : Type} (l : List α) (x : α) :
    (l ++ [x]).isEmpty = false := by
  cases l <;> rfl

/-- The start times produced by `mkSegs` are the prefix sums of the
durations. -/
lemma mkSegs_startTime_getD (ds : List ℚ) (T0 : ℚ) (i : ℕ)
    (h : i < ds.length) :
    ((mkSegs T0 ds).map Segment.startTime).getD i 0 = T0 + (ds.take i).sum := by
  induction ds generalizing T0 i with
  | nil => simp at h
  | cons d ds ih =>
      cases i with
      | zero => simp [mkSegs]
      | succ n =>
          simp only [mkSegs, List.map_cons, List.getD_cons_succ,
            List.take_succ_cons, List.sum_cons]
          rw [ih (T0 + d) n (by simpa using h)]
          ring

/-- Back-to-back segments never overlap: each start plus duration equals
the next start. -/
lemma segsNoOverlap_mkSegs (ds : List ℚ) (T0 : ℚ) :
    segsNoOverlap (mkSegs T0 ds) = true := by
  induction ds generalizing T0 with
  | nil => rfl
  | cons d ds ih =>
      cases ds with
      | nil => rfl
      | cons d2 ds2 =>
          show (decide (T0 + d ≤ T0 + d) && segsNoOverlap (mkSegs (T0 + d) (d2 :: ds2))) = true
          rw [ih (T0 + d)]
          simp

/-- Core lemma for gapless sequencing: if every chunk of durations `ds`
arrives at audio time `a` no later than the cursor, the run appends
exactly the back-to-back segments starting at the cursor, and the cursor
advances by the total duration. -/
lemma schedRun_audioChunks (ds : List ℚ) (a : ℚ) (s : SchedulerState)
    (ha : a ≤ s.nextStartTime) (hds : ∀ d ∈ ds, 0 ≤ d) :
    (schedRun s (ds.map fun d => SchedEvent.audioChunk a (some d) 0)).activeSources
        = s.activeSources ++ mkSegs s.nextStartTime ds
    ∧ (schedRun s (ds.map fun d => SchedEvent.audioChunk a (some d) 0)).nextStartTime
        = s.nextStartTime + ds.sum := by
  induction ds generalizing s with
  | nil => simp [schedRun, mkSegs]
  | cons d ds ih =>
      have hd : 0 ≤ d := hds d (List.mem_cons_self d ds)
      have hmax : max s.nextStartTime a = s.nextStartTime := max_eq_left ha
      have h1 : (enqueueChunk s a (some d) 0).nextStartTime
          = s.nextStartTime + d := by
        show max s.nextStartTime a + d = s.nextStartTime + d
        rw [hmax]
      have h2 : (enqueueChunk s a (some d) 0).activeSources
          = s.activeSources ++ [⟨s.nextStartTime, d, 0⟩] := by
        show s.activeSources ++ [⟨max s.nextStartTime a, d, 0⟩]
            = s.activeSources ++ [⟨s.nextStartTime, d, 0⟩]
        rw [hmax]
      have ha1 : a ≤ (enqueueChunk s a (some d) 0).nextStartTime := by
        rw [h1]
        exact le_trans ha (le_add_of_nonneg_right hd)
      obtain ⟨ihA, ihN⟩ := ih (enqueueChunk s a (some d) 0) ha1
        (fun x hx => hds x (List.mem_cons_of_mem _ hx))
      rw [List.map_cons, schedRun_cons]
      constructor
      · show (schedRun (enqueueChunk s a (some d) 0) _).activeSources = _
        rw [ihA, h2, h1, List.append_assoc]
        rfl
      · show (schedRun (enqueueChunk s a (some d) 0) _).nextStartTime = _
        rw [ihN, h1, List.sum_cons]
        ring

/-! ## Claim C1: gapless, non-overlapping sequential scheduling -/

/-- C1: every successfully decoded chunk is scheduled at
`max(nextStartTime, now)` and the cursor then moves to that start plus the
duration; for chunks of durations `ds` enqueued with zero delay (each
arriving no later than the cursor) starting at reference time `T0`, the
i-th segment starts at `T0` plus the sum of the durations before it, and
the scheduled segments never overlap. -/
theorem scheduler_gapless_sequencing :
    (∀ (s : SchedulerState) (now dur : ℚ) (sid : ℕ),
        (enqueueChunk s now (some dur) sid).activeSources
          = s.activeSources ++ [⟨max s.nextStartTime now, dur, sid⟩]
        ∧ (enqueueChunk s now (some dur) sid).nextStartTime
          = max s.nextStartTime now + dur)
    ∧ (∀ (s : SchedulerState) (T0 a : ℚ) (ds : List ℚ),
        s.nextStartTime = T0 → a ≤ T0 → (∀ d ∈ ds, 0 ≤ d) →
        (schedRun s (ds.map fun d => SchedEvent.audioChunk a (some d) 0)).activeSources
            = s.activeSources ++ mkSegs T0 ds
        ∧ (∀ i, i < ds.length →
            ((mkSegs T0 ds).map Segment.startTime).getD i 0 = T0 + (ds.take i).sum)
        ∧ segsNoOverlap (mkSegs T0 ds) = true) := by
  constructor
  · intro s now dur sid
    exact ⟨rfl, rfl⟩
  · intro s T0 a ds hT ha hds
    subst hT
    exact ⟨(schedRun_audioChunks ds a s ha hds).1,
      fun i h => mkSegs_startTime_getD ds _ i h,
      segsNoOverlap_mkSegs ds _⟩

/-- C1 witness: two chunks of durations 2 and 3 arriving at time 0 on the
initial scheduler are laid out back to back from time 0, and the second
segment starts at 0 + 2. -/
theorem scheduler_gapless_sequencing_witness :
    (schedRun initialSched
        ([2, 3].map fun d => SchedEvent.audioChunk 0 (some d) 0)).activeSources
      = initialSched.activeSources ++ mkSegs 0 [2, 3]
    ∧ ((mkSegs (0 : ℚ) [2, 3]).map Segment.startTime).getD 1 0
      = 0 + ([(2 : ℚ), 3].take 1).sum :=
  ⟨(scheduler_gapless_sequencing.2 initialSched 0 0 [2, 3] rfl (le_refl 0)
      (by decide)).1,
   (scheduler_gapless_sequencing.2 initialSched 0 0 [2, 3] rfl (le_refl 0)
      (by decide)).2.1 1 (by decide)⟩

/-! ## Claim C10: the two App variants implement the same transcript aggregator -/

/-- C10: for every prior transcript sequence, role, fragment text, and clock
value, `updateTranscript` of part_001 and `updateTranscript` of part_002
produce identical resulting sequences. -/
theorem updateTranscript_variants_agree (prev : List Message) (role : Role)
    (text : String) (now : ℤ) :
    AppV1.updateTranscript prev role text now
      = AppV2.updateTranscript prev role text now := rfl

/-! ## Claim C2: what actually happens on a decode failure

The claim states that a failed decode leaves the scheduler state completely
unchanged.  In the code, `setIsModelTalking(true)` and
`nextStartTime = max(nextStartTime, now)` run before the decode is awaited,
so a decode failure does mutate the state. -/

/-- C2 counterexample: from the initial state, a chunk arriving at audio
time 5 whose decode fails changes the state — `nextStartTime` becomes 5 and
`isModelTalking` becomes true — refuting the claim that the decode-failure
path leaves the scheduler state completely unchanged. -/
theorem decode_failure_not_atomic_cex :
    enqueueChunk initialSched 5 none 0 ≠ initialSched
    ∧ (enqueueChunk initialSched 5 none 0).nextStartTime = 5
    ∧ (enqueueChunk initialSched 5 none 0).isModelTalking = true
    ∧ initialSched.nextStartTime = 0
    ∧ initialSched.isModelTalking = false := by
  refine ⟨?_, rfl, rfl, rfl, rfl⟩
  intro h
  exact absurd (congrArg SchedulerState.nextStartTime h) (by decide)

/-- C2 amended: on a decode failure the chunk is dropped — no segment is
inserted and the active set is unchanged — but the mutations made before
the decode survive: `nextStartTime` has been advanced to
`max(nextStartTime, now)` and `isModelTalking` has been set to true. -/
theorem decode_failure_drops_chunk (s : SchedulerState) (now : ℚ) (sid : ℕ) :
    (enqueueChunk s now none sid).activeSources = s.activeSources
    ∧ (enqueueChunk s now none sid).nextStartTime = max s.nextStartTime now
    ∧ (enqueueChunk s now none sid).isModelTalking = true :=
  ⟨rfl, rfl, rfl⟩

/-! ## Claim C8: session end does not reset the scheduler

The claim states that `endInterview` resets `nextStartTime` to 0 and
empties the active set, the same reset an interruption performs.  The code
of `endInterview` only closes the session (and stops the microphone
tracks) and sets the status to ENDED; the scheduler refs are untouched. -/

/-- C8 counterexample: ending the interview from a state with
`nextStartTime = 5` and one active segment leaves both unchanged — the
cursor stays 5 (not 0) and the active set stays non-empty, refuting the
claimed reset on normal session end. -/
theorem endInterview_no_reset_cex :
    (endInterview ⟨InterviewStatus.ACTIVE, ⟨5, [⟨0, 5, 0⟩], true⟩⟩).sched.nextStartTime = 5
    ∧ (5 : ℚ) ≠ 0
    ∧ (endInterview ⟨InterviewStatus.ACTIVE, ⟨5, [⟨0, 5, 0⟩], true⟩⟩).sched.activeSources ≠ [] := by
  refine ⟨rfl, by norm_num, by decide⟩

/-- C8 amended: `endInterview` sets the status to ENDED but leaves the
scheduler state (cursor and active set) unchanged; only the interruption
handler performs the reset to `nextStartTime = 0` with an empty active
set. -/
theorem endInterview_behavior (st : AppState) :
    (endInterview st).status = InterviewStatus.ENDED
    ∧ (endInterview st).sched = st.sched
    ∧ handleInterrupt st.sched = ⟨0, [], false⟩ :=
  ⟨rfl, rfl, rfl⟩

/-! ## Claim C5: interruption resets cleanly, also on an empty active set -/

/-- C5: `handleInterrupt` (total, hence error-free in the model) empties
the active set, resets `nextStartTime` to 0 and sets `isModelTalking`
false, for every prior state; called on a state whose cursor is already
reset and whose active set is empty, it is the identity. -/
theorem handleInterrupt_resets (s : SchedulerState) :
    (handleInterrupt s).activeSources = []
    ∧ (handleInterrupt s).nextStartTime = 0
    ∧ (handleInterrupt s).isModelTalking = false
    ∧ (s.activeSources = [] → s.nextStartTime = 0 → s.isModelTalking = false →
        handleInterrupt s = s) := by
  refine ⟨rfl, rfl, rfl, fun ha hn ht => ?_⟩
  cases s
  simp only [handleInterrupt]
  simp_all

/-- C5 witness: on the initial state (empty active set, cursor 0) the
interrupt handler produces no state change, and from a busy state it
empties the active set. -/
theorem handleInterrupt_resets_witness :
    handleInterrupt initialSched = initialSched
    ∧ (handleInterrupt ⟨5, [⟨0, 5, 0⟩], true⟩).activeSources = [] :=
  ⟨(handleInterrupt_resets initialSched).2.2.2 rfl rfl rfl,
    (handleInterrupt_resets ⟨5, [⟨0, 5, 0⟩], true⟩).1⟩

/-! ## Claim C7: the cursor never decreases except on interruption -/

/-- Any non-interrupt event with a non-negative decoded duration moves the
cursor forward or keeps it. -/
lemma schedStep_nextStartTime_le (s : SchedulerState) (e : SchedEvent)
    (hd : durNonneg e = true) (hne : e ≠ SchedEvent.interrupted) :
    s.nextStartTime ≤ (schedStep s e).nextStartTime := by
  cases e with
  | audioChunk now decoded sid =>
      cases decoded with
      | none => exact le_max_left _ _
      | some d =>
          have h0 : 0 ≤ d := by simpa [durNonneg] using hd
          show s.nextStartTime ≤ max s.nextStartTime now + d
          calc s.nextStartTime ≤ max s.nextStartTime now := le_max_left _ _
            _ ≤ max s.nextStartTime now + d := le_add_of_nonneg_right h0
  | ended sid => exact le_refl _
  | interrupted => exact absurd rfl hne

/-- Over a trace of non-interrupt events with non-negative durations the
cursor is monotone. -/
lemma schedRun_nextStartTime_le (evs : List SchedEvent) (s : SchedulerState)
    (h : ∀ e ∈ evs, durNonneg e = true ∧ e ≠ SchedEvent.interrupted) :
    s.nextStartTime ≤ (schedRun s evs).nextStartTime := by
  induction evs generalizing s with
  | nil => exact le_refl _
  | cons e evs ih =>
      obtain ⟨hd, hne⟩ := h e (List.mem_cons_self e evs)
      rw [schedRun_cons]
      exact le_trans (schedStep_nextStartTime_le s e hd hne)
        (ih _ (fun x hx => h x (List.mem_cons_of_mem _ hx)))

/-- C7: assuming non-negative segment durations, every scheduler step other
than the interruption keeps `nextStartTime` equal or moves it forward (also
across whole traces), the interruption sets it to 0, and `endInterview`
does not touch the scheduler state at all. -/
theorem nextStartTime_monotone (s : SchedulerState) :
    (∀ e : SchedEvent, durNonneg e = true → e ≠ SchedEvent.interrupted →
        s.nextStartTime ≤ (schedStep s e).nextStartTime)
    ∧ (schedStep s SchedEvent.interrupted).nextStartTime = 0
    ∧ (∀ evs : List SchedEvent,
        (∀ e ∈ evs, durNonneg e = true ∧ e ≠ SchedEvent.interrupted) →
        s.nextStartTime ≤ (schedRun s evs).nextStartTime)
    ∧ (∀ st : AppState, (endInterview st).sched = st.sched) :=
  ⟨fun e hd hne => schedStep_nextStartTime_le s e hd hne, rfl,
   fun evs h => schedRun_nextStartTime_le evs s h, fun _ => rfl⟩

/-- C7 witness: on the initial state, a decoded chunk followed by its
ended event never lowers the cursor. -/
theorem nextStartTime_monotone_witness :
    initialSched.nextStartTime
      ≤ (schedRun initialSched
          [SchedEvent.audioChunk 3 (some 1) 0, SchedEvent.ended 0]).nextStartTime :=
  (nextStartTime_monotone initialSched).2.2.1
    [SchedEvent.audioChunk 3 (some 1) 0, SchedEvent.ended 0] (by decide)

/-! ## Claim C3: `isModelTalking` tracks non-emptiness of the active set

The claimed equivalence holds on every state reachable without decode
failures, but a decode failure sets `isModelTalking` before any segment is
inserted, so a reachable state can have the flag true with an empty active
set. -/

/-- A step whose decode (if any) succeeded preserves the equivalence of
`isModelTalking` with non-emptiness of the active set. -/
lemma schedStep_talking_inv (s : SchedulerState) (e : SchedEvent)
    (hok : decodeOk e = true)
    (h : s.isModelTalking = !s.activeSources.isEmpty) :
    (schedStep s e).isModelTalking = !(schedStep s e).activeSources.isEmpty := by
  cases e with
  | audioChunk now decoded sid =>
      cases decoded with
      | none => simp [decodeOk] at hok
      | some d =>
          show true
            = !(s.activeSources
                ++ [Segment.mk (max s.nextStartTime now) d sid]).isEmpty
          rw [isEmpty_append_singleton]
          rfl
  | ended sid =>
      show (if (s.activeSources.filter fun seg => seg.id != sid).isEmpty
              then false else s.isModelTalking)
          = !(s.activeSources.filter fun seg => seg.id != sid).isEmpty
      cases hrem : (s.activeSources.filter fun seg => seg.id != sid).isEmpty with
      | true => simp
      | false =>
          simp only [Bool.not_false, if_false]
          rw [h]
          cases hs : s.activeSources with
          | nil =>
              rw [hs] at hrem
              simp at hrem
          | cons a l => simp
  | interrupted => rfl

/-- Over a trace of decode-successful events the equivalence is
preserved. -/
lemma schedRun_talking_inv (evs : List SchedEvent) (s : SchedulerState)
    (hok : ∀ e ∈ evs, decodeOk e = true)
    (h : s.isModelTalking = !s.activeSources.isEmpty) :
    (schedRun s evs).isModelTalking
      = !(schedRun s evs).activeSources.isEmpty := by
  induction evs generalizing s with
  | nil => exact h
  | cons e evs ih =>
      rw [schedRun_cons]
      exact ih _ (fun x hx => hok x (List.mem_cons_of_mem _ hx))
        (schedStep_talking_inv s e (hok e (List.mem_cons_self e evs)) h)

/-- C3 counterexample: a single malformed chunk (decode failure) arriving
at audio time 5 drives the initial state into a reachable state where
`isModelTalking` is true while the active set is empty, refuting the
claimed equivalence over all reachable states. -/
theorem speaking_invariant_cex :
    (schedRun initialSched [SchedEvent.audioChunk 5 none 0]).isModelTalking = true
    ∧ (schedRun initialSched [SchedEvent.audioChunk 5 none 0]).activeSources = [] :=
  ⟨rfl, rfl⟩

/-- C3 amended: in every state reachable from the initial scheduler state
by events whose decodes succeed (plus ended events and interruptions),
`isModelTalking` is true exactly when the active set is non-empty; the
enqueue path sets the flag unconditionally, which preserves the
equivalence because the insertion makes the set non-empty. -/
theorem isModelTalking_iff_active_nonempty (evs : List SchedEvent)
    (hok : ∀ e ∈ evs, decodeOk e = true) :
    (schedRun initialSched evs).isModelTalking
      = !(schedRun initialSched evs).activeSources.isEmpty :=
  schedRun_talking_inv evs initialSched hok rfl

/-- C3 witness: after a decoded chunk, its completion, and an interruption
the flag agrees with the active set. -/
theorem isModelTalking_iff_active_nonempty_witness :
    (schedRun initialSched
        [SchedEvent.audioChunk 0 (some 2) 1, SchedEvent.ended 1,
          SchedEvent.interrupted]).isModelTalking
      = !(schedRun initialSched
          [SchedEvent.audioChunk 0 (some 2) 1, SchedEvent.ended 1,
            SchedEvent.interrupted]).activeSources.isEmpty :=
  isModelTalking_iff_active_nonempty
    [SchedEvent.audioChunk 0 (some 2) 1, SchedEvent.ended 1,
      SchedEvent.interrupted] (by decide)

/-! ## Helper equations for the transcript aggregator -/

/-- Merge case of `updateTranscript`: same role within the 3000 ms window
replaces the last segment, keeping its creation timestamp. -/
lemma updateTranscript_merge (prev : List Message) (last : Message)
    (role : Role) (text : String) (now : ℤ)
    (hlast : prev.getLast? = some last) (hrole : last.role = role)
    (htime : now - last.timestamp < 3000) :
    AppV2.updateTranscript prev role text now
      = prev.dropLast
        ++ [Message.mk last.role (last.text ++ " " ++ text) last.timestamp] := by
  simp only [AppV2.updateTranscript, hlast]
  rw [if_pos ⟨hrole, htime⟩]

/-- New-segment case of `updateTranscript` when a last segment exists but
the merge condition fails. -/
lemma updateTranscript_new_of_last (prev : List Message) (last : Message)
    (role : Role) (text : String) (now : ℤ)
    (hlast : prev.getLast? = some last)
    (hcond : ¬(last.role = role ∧ now - last.timestamp < 3000)) :
    AppV2.updateTranscript prev role text now
      = prev ++ [Message.mk role text now] := by
  simp only [AppV2.updateTranscript, hlast]
  rw [if_neg hcond]

/-- `updateTranscript` on the empty transcript appends the new segment. -/
lemma updateTranscript_nil (role : Role) (text : String) (now : ℤ) :
    AppV2.updateTranscript [] role text now = [Message.mk role text now] := rfl

/-- Each aggregator call grows the transcript by at most one segment. -/
lemma updateTranscript_length_le (prev : List Message) (role : Role)
    (text : String) (now : ℤ) :
    (AppV2.updateTranscript prev role text now).length ≤ prev.length + 1 := by
  cases hp : prev.getLast? with
  | none =>
      have : prev = [] := List.getLast?_eq_none_iff.mp hp
      subst this
      rw [updateTranscript_nil]
      exact le_refl _
  | some last =>
      by_cases hcond : last.role = role ∧ now - last.timestamp < 3000
      · rw [updateTranscript_merge prev last role text now hp hcond.1 hcond.2]
        rw [List.length_append, List.length_dropLast]
        simp only [List.length_cons, List.length_nil]
        omega
      · rw [updateTranscript_new_of_last prev last role text now hp hcond]
        rw [List.length_append]
        exact le_refl _

/-- Entries of `dropLast` agree with the original list below the last
index. -/
lemma getElem?_dropLast_of_lt {α : Type} (l : List α) (i : ℕ)
    (h : i + 1 < l.length) : l.dropLast[i]? = l[i]? := by
  induction l generalizing i with
  | nil => simp at h
  | cons a l ih =>
      cases l with
      | nil => simp at h
      | cons b t =>
          cases i with
          | zero => simp [List.dropLast]
          | succ n =>
              show (a :: (b :: t).dropLast)[n + 1]? = (a :: b :: t)[n + 1]?
              rw [List.getElem?_cons_succ, List.getElem?_cons_succ]
              exact ih n (by simp only [List.length_cons] at h ⊢; omega)

/-! ## Claim C4: the coalescing rule of the transcript aggregator -/

/-- C4: a fragment merges into the last segment exactly when the roles
match and strictly less than 3000 ms elapsed since that segment's creation
timestamp, keeping the original timestamp and joining the texts with a
single space; otherwise a new segment is appended.  The concrete cases:
same-role fragments at 0 ms and 1000 ms coalesce into one segment stamped
0, a same-role fragment at 3500 ms starts a new segment (3500 ms since the
segment's creation, though only 2500 ms since the previous fragment), and
a different-role fragment always starts a new segment. -/
theorem updateTranscript_coalescing :
    (∀ (prev : List Message) (last : Message) (role : Role) (text : String)
        (now : ℤ), prev.getLast? = some last → last.role = role →
        now - last.timestamp < 3000 →
        AppV2.updateTranscript prev role text now
          = prev.dropLast
            ++ [Message.mk last.role (last.text ++ " " ++ text) last.timestamp])
    ∧ (∀ (prev : List Message) (last : Message) (role : Role) (text : String)
        (now : ℤ), prev.getLast? = some last →
        ¬(last.role = role ∧ now - last.timestamp < 3000) →
        AppV2.updateTranscript prev role text now
          = prev ++ [Message.mk role text now])
    ∧ (∀ (role : Role) (text : String) (now : ℤ),
        AppV2.updateTranscript [] role text now = [Message.mk role text now])
    ∧ AppV2.updateTranscript [Message.mk Role.interviewer "five" 0]
        Role.interviewer "six" 1000
      = [Message.mk Role.interviewer "five six" 0]
    ∧ AppV2.updateTranscript [Message.mk Role.interviewer "five six" 0]
        Role.interviewer "seven" 3500
      = [Message.mk Role.interviewer "five six" 0,
          Message.mk Role.interviewer "seven" 3500]
    ∧ AppV2.updateTranscript [Message.mk Role.interviewer "five six" 0]
        Role.candidate "hello" 1200
      = [Message.mk Role.interviewer "five six" 0,
          Message.mk Role.candidate "hello" 1200] :=
  ⟨updateTranscript_merge, updateTranscript_new_of_last, updateTranscript_nil,
    rfl, rfl, rfl⟩

/-- C4 witness: the merge clause applied to the fragment "six" arriving
1000 ms after the segment "five" was created. -/
theorem updateTranscript_coalescing_witness :
    AppV2.updateTranscript [Message.mk Role.interviewer "five" 0]
        Role.interviewer "six" 1000
      = ([Message.mk Role.interviewer "five" 0] : List Message).dropLast
        ++ [Message.mk Role.interviewer ("five" ++ " " ++ "six") 0] :=
  updateTranscript_coalescing.1 [Message.mk Role.interviewer "five" 0]
    (Message.mk Role.interviewer "five" 0) Role.interviewer "six" 1000
    rfl rfl (by decide)

/-! ## Claim C6: the transcript sequence is append-only -/

/-- C6: every aggregator call either replaces only the last segment or
appends one new segment at the end; the length never shrinks, and every
segment except possibly the last is preserved unchanged (so the sequence
keeps its creation order and nothing is deleted). -/
theorem updateTranscript_append_only (prev : List Message) (role : Role)
    (text : String) (now : ℤ) :
    (∃ m, AppV2.updateTranscript prev role text now = prev.dropLast ++ [m]
        ∨ AppV2.updateTranscript prev role text now = prev ++ [m])
    ∧ prev.length ≤ (AppV2.updateTranscript prev role text now).length
    ∧ (∀ i, i + 1 < prev.length →
        (AppV2.updateTranscript prev role text now)[i]? = prev[i]?) := by
  cases hp : prev.getLast? with
  | none =>
      have hnil : prev = [] := List.getLast?_eq_none_iff.mp hp
      subst hnil
      refine ⟨⟨Message.mk role text now, Or.inr rfl⟩, by simp, ?_⟩
      intro i hi
      simp at hi
  | some last =>
      have hne : prev ≠ [] := by
        intro hcontra
        rw [hcontra] at hp
        simp at hp
      have hpos : 0 < prev.length := List.length_pos.mpr hne
      by_cases hcond : last.role = role ∧ now - last.timestamp < 3000
      · rw [updateTranscript_merge prev last role text now hp hcond.1 hcond.2]
        refine ⟨⟨_, Or.inl rfl⟩, ?_, ?_⟩
        · rw [List.length_append, List.length_dropLast]
          simp only [List.length_cons, List.length_nil]
          omega
        · intro i hi
          rw [List.getElem?_append_left (by rw [List.length_dropLast]; omega)]
          exact getElem?_dropLast_of_lt prev i hi
      · rw [updateTranscript_new_of_last prev last role text now hp hcond]
        refine ⟨⟨_, Or.inr rfl⟩, by simp, ?_⟩
        intro i hi
        exact List.getElem?_append_left (by omega)

/-- C6 witness: updating a two-segment transcript preserves the first
segment. -/
theorem updateTranscript_append_only_witness :
    (AppV2.updateTranscript
        [Message.mk Role.interviewer "a" 0, Message.mk Role.candidate "b" 5000]
        Role.candidate "c" 6000)[0]?
      = [Message.mk Role.interviewer "a" 0,
          Message.mk Role.candidate "b" 5000][0]? :=
  (updateTranscript_append_only
      [Message.mk Role.interviewer "a" 0, Message.mk Role.candidate "b" 5000]
      Role.candidate "c" 6000).2.2 0 (by decide)

/-! ## Claim C9: at most one fragment per message, interviewer first -/

/-- The transcription branch appends at most one fragment. -/
lemma handleTranscription_length_le (tr : List Message)
    (outT inT : Option String) (wall : ℤ) :
    (handleTranscription tr outT inT wall).length ≤ tr.length + 1 := by
  cases outT with
  | some t => exact updateTranscript_length_le tr .interviewer t wall
  | none =>
      cases inT with
      | some t => exact updateTranscript_length_le tr .candidate t wall
      | none => exact Nat.le_succ _

/-- C9: every inbound message appends at most one transcript fragment, and
when a message carries both an output and an input transcription only the
interviewer fragment is appended — the candidate fragment is dropped
because input transcription is processed only in the else branch. -/
theorem handleTranscription_priority :
    (∀ (sched : SchedulerState) (tr : List Message) (msg : ServerMessage)
        (now : ℚ) (wall : ℤ) (sid : ℕ),
        ((onmessage sched tr msg now wall sid).2).length ≤ tr.length + 1)
    ∧ (∀ (tr : List Message) (t u : String) (wall : ℤ),
        handleTranscription tr (some t) (some u) wall
          = AppV2.updateTranscript tr Role.interviewer t wall) := by
  constructor
  · intro sched tr msg now wall sid
    obtain ⟨audio, outT, inT, intr⟩ := msg
    cases audio with
    | none => exact handleTranscription_length_le tr outT inT wall
    | some decoded =>
        cases decoded with
        | none => exact Nat.le_succ _
        | some d => exact handleTranscription_length_le tr outT inT wall
  · intro tr t u wall
    rfl

end HiringCopilot
